import Mathlib

/-!
Verification of the crypto-tax matching core.

Shallow embedding of the repository's source files:
  * `execution.py` — the `Execution` record and `reduce_executions`;
  * `match.py`     — the `Match` record and `Matcher.__match_fifo_lifo`
                     (with its `match_fifo` / `match_lifo` entry points);
  * `price_data.py`— `PriceData.lookup_price` and the currency predicates;
  * `trade.py`     — `Trade.normalize_executions`, `Trade.__do_fees`,
                     `Trade.modify_fee`;
  * `crypto_taxes.py` — `MatchQueue.prices_close`.

Python `Decimal` values are modelled as exact rationals (`ℚ`); the only
place the source rounds during matching is `Match.__init__`, whose
`quantize` calls (`ROUND_HALF_EVEN`, the default context) are modelled by
`quantize4` / `quantize2` below.  Dates are opaque and modelled as `ℕ`;
exchanges, assets and sides are the Python strings the source compares
with `==`.
-/

/-- Round-half-even (banker's rounding) to an integer, as Python's
`Decimal.quantize` does under the default context. -/
def rhe (y : ℚ) : ℤ :=
  let n := ⌊y⌋
  let f := y - (n : ℚ)
  if f < 1/2 then n
  else if (1/2 : ℚ) < f then n + 1
  else if Even n then n else n + 1

/-- `x.quantize(Decimal('0.0001'))`: round to 4 decimal places, half to even. -/
def quantize4 (x : ℚ) : ℚ := (rhe (x * 10000) : ℚ) / 10000

/-- `x.quantize(Decimal('0.01'))`: round to 2 decimal places, half to even. -/
def quantize2 (x : ℚ) : ℚ := (rhe (x * 100) : ℚ) / 100

theorem abs_rhe_sub_le (y : ℚ) : |(rhe y : ℚ) - y| ≤ 1/2 := by
  have h0 : (⌊y⌋ : ℚ) ≤ y := Int.floor_le y
  have h1 : y < ⌊y⌋ + 1 := Int.lt_floor_add_one y
  rw [abs_le]
  simp only [rhe]
  split_ifs with hf hg he <;> constructor <;> push_cast <;> linarith

theorem abs_quantize4_sub_le (x : ℚ) : |quantize4 x - x| ≤ 1/20000 := by
  have h := abs_rhe_sub_le (x * 10000)
  have hrw : quantize4 x - x = ((rhe (x * 10000) : ℚ) - x * 10000) / 10000 := by
    unfold quantize4; ring
  rw [hrw, abs_div, abs_of_pos (by norm_num : (0:ℚ) < 10000)]
  rw [div_le_iff₀ (by norm_num : (0:ℚ) < 10000)]
  linarith

/-- `execution.py` — `class Execution`.  A normalized single-asset leg.
`side` is one of the strings `"Buy"`, `"Sell"`, `"Transfer"`. -/
structure Execution where
  exchange : String
  date : ℕ
  asset : String
  side : String
  quantity : ℚ := 0
  price : ℚ := 0
  fee : ℚ := 0
  merged : Bool := false
deriving DecidableEq

/-- `execution.py` — `Execution.is_transfer`. -/
def Execution.is_transfer (e : Execution) : Bool := e.side == "Transfer"

/-- `execution.py` — `reduce_executions(first, second)`.
The Python function mutates `first` and `second` in place and returns
`(min_qty, first_reduce_fee, second_reduce_fee)`; we return the updated
records together with that triple. -/
def reduce_executions (first second : Execution) :
    Execution × Execution × ℚ × ℚ × ℚ :=
  let min_qty := min first.quantity second.quantity
  let first_reduce_fee := first.fee * (min_qty / first.quantity)
  let second_reduce_fee := second.fee * (min_qty / second.quantity)
  let first' : Execution :=
    { first with fee := first.fee - first_reduce_fee, quantity := first.quantity - min_qty }
  let second' : Execution :=
    { second with fee := second.fee - second_reduce_fee, quantity := second.quantity - min_qty }
  (first', second', min_qty, first_reduce_fee, second_reduce_fee)

/-- `match.py` — `class Match`.  Fields are stored already quantized, as
`Match.__init__` does (`quantity` to 4 places, monetary fields to 2). -/
structure Match where
  exchange_from : String
  exchange_to : String
  date_from : ℕ
  date_to : ℕ
  asset : String
  settle_side : String
  quantity : ℚ
  amount_open : ℚ
  amount_close : ℚ
  fee_open : ℚ
  fee_close : ℚ
  merged : Bool
deriving DecidableEq

/-- `match.py` — `Match.__init__`: quantizes quantity to `FOURPLACES` and
the four monetary fields to `TWOPLACES`. -/
def Match.make (exchange_from exchange_to : String) (date_from date_to : ℕ)
    (asset settle_side : String) (quantity amount_open amount_close fee_open fee_close : ℚ)
    (merged : Bool) : Match :=
  { exchange_from := exchange_from
    exchange_to := exchange_to
    date_from := date_from
    date_to := date_to
    asset := asset
    settle_side := settle_side
    quantity := quantize4 quantity
    amount_open := quantize2 amount_open
    amount_close := quantize2 amount_close
    fee_open := quantize2 fee_open
    fee_close := quantize2 fee_close
    merged := merged }

/-!
`match.py` — `Matcher.__match_fifo_lifo`.

The source keeps, per asset, a `deque` of same-side executions and is
parameterized by three closures: `peek_top` / `take_top` / `add_top`
(FIFO: `x[0]` / `popleft` / `appendleft`; LIFO: `x[-1]` / `pop` /
`append`).  We model the deque as a `List Execution` oriented so that
the strategy's "top" is always the list head.  Under that orientation
`peek_top` is `head`, `take_top` splits the head, `add_top` is `cons`
for both strategies, and the unconditional `queue.append(execution)`
(the deque's right end) appends at the tail for FIFO and at the head
for LIFO; `match_lifo` reverses the final queue back into the deque's
left-to-right order.
-/

/-- `queue.append(execution)` (deque right end) under the head-is-top
orientation: tail append for FIFO, head cons for LIFO. -/
def pushBack (fifo : Bool) (q : List Execution) (e : Execution) : List Execution :=
  if fifo then q ++ [e] else e :: q

/-- `match.py` lines 96-116: the in-place transfer reduction loop run when
`xfer_update` is true.  Each round takes the top, reduces it and the
incoming transfer's fee by their minimum, and stops per the three `break`
conditions.  The `[]` clause is unreachable (the call site and the loop
guard ensure a non-empty queue; there the source's `take_top` would raise
`IndexError`). -/
def xferLoop : List Execution → Execution → List Execution
  | [], _ => []
  | first :: rest, e =>
    let min_qty := min first.quantity e.fee
    let first' : Execution := { first with quantity := first.quantity - min_qty }
    let e' : Execution := { e with fee := e.fee - min_qty }
    if e'.fee ≤ 0 ∧ first'.quantity ≤ 0 then rest
    else if e'.fee ≤ 0 then first' :: rest
    else if rest.isEmpty then [e']
    else xferLoop rest e'

/-- `match.py` lines 120-157: the opposing-side reduction loop.  Each round
takes the top (`first`), pro-rates both fees by `min_qty / quantity`,
reduces both quantities by `min_qty`, emits a `Match`, and stops per the
three `break` conditions.  The `[]` clause is unreachable for the same
reason as in `xferLoop`. -/
def matchLoop (currency : String) : List Execution → Execution → List Match × List Execution
  | [], e => ([], [e])
  | first :: rest, e =>
    let min_qty := min first.quantity e.quantity
    let fee_first := first.fee * (min_qty / first.quantity)
    let fee_exec := e.fee * (min_qty / e.quantity)
    let first' : Execution :=
      { first with fee := first.fee - fee_first, quantity := first.quantity - min_qty }
    let e' : Execution :=
      { e with fee := e.fee - fee_exec, quantity := e.quantity - min_qty }
    let mt := Match.make first.exchange e.exchange first.date e.date currency e.side min_qty
      (first.price * min_qty) (e.price * min_qty) fee_first fee_exec (first.merged || e.merged)
    if e'.quantity ≤ 0 ∧ first'.quantity ≤ 0 then ([mt], rest)
    else if e'.quantity ≤ 0 then ([mt], first' :: rest)
    else if rest.isEmpty then ([mt], [e'])
    else
      let r := matchLoop currency rest e'
      (mt :: r.1, r.2)

/-- The mutable state of `__match_fifo_lifo` while processing one asset's
execution list: the accumulated matches, the per-asset deque (head-is-top
orientation), and the asset's `xfer_fees` accumulator. -/
structure MState where
  matchList : List Match  -- the source variable `matches` (a Lean keyword)
  queue : List Execution
  xferFees : ℚ
deriving DecidableEq

/-- `match.py` lines 88-157: the body of `for execution in executions`. -/
def stepExec (xferUpdate fifo : Bool) (currency : String) (s : MState) (e : Execution) : MState :=
  match s.queue with
  | [] => { s with queue := pushBack fifo s.queue e }
  | top :: _ =>
    if top.side = e.side then
      { s with queue := pushBack fifo s.queue e }
    else if e.side = "Transfer" then
      if xferUpdate then
        { s with queue := xferLoop s.queue e }
      else
        { s with xferFees := s.xferFees + e.quantity }
    else
      let r := matchLoop currency s.queue e
      { s with matchList := s.matchList ++ r.1, queue := r.2 }

/-- `match.py` lines 86-159 for a single asset key `currency` of
`self.queue` (assets are processed independently; `xfer_fees` is the
accumulator for this asset, keyed by `execution.asset` in the source). -/
def processAsset (fifo xferUpdate : Bool) (currency : String) (executions : List Execution) :
    MState :=
  executions.foldl (stepExec xferUpdate fifo currency) ⟨[], [], 0⟩

/-- `Matcher.match_fifo`, restricted to one asset: returns the matches, the
leftover queue (`list(queue)`) and the asset's transfer-fee losses. -/
def match_fifo (xferUpdate : Bool) (currency : String) (executions : List Execution) :
    List Match × List Execution × ℚ :=
  let s := processAsset true xferUpdate currency executions
  (s.matchList, s.queue, s.xferFees)

/-- `Matcher.match_lifo`, restricted to one asset.  The final queue is
reversed back from the head-is-top orientation to the deque's
left-to-right order. -/
def match_lifo (xferUpdate : Bool) (currency : String) (executions : List Execution) :
    List Match × List Execution × ℚ :=
  let s := processAsset false xferUpdate currency executions
  (s.matchList, s.queue.reverse, s.xferFees)

/-- Total quantity of a list of executions. -/
def sumQ (l : List Execution) : ℚ := (l.map (fun e => e.quantity)).sum

/-- Total quantity recorded across a list of matches. -/
def matchedSum (l : List Match) : ℚ := (l.map (fun m => m.quantity)).sum

/-- Claim C5: given three same-asset Buys B1(t1,q=1), B2(t2,q=1), B3(t3,q=1)
with t1 < t2 < t3 followed by one Sell of quantity 2, the FIFO strategy
produces exactly two Matches, against B1 then B2, leaving B3 as the sole
leftover; the LIFO strategy produces exactly two Matches, against B3 then
B2, leaving B1 as the sole leftover. -/
theorem fifo_lifo_ordering :
    let b1 : Execution := { exchange := "E", date := 1, asset := "BTC", side := "Buy", quantity := 1, price := 10 }
    let b2 : Execution := { exchange := "E", date := 2, asset := "BTC", side := "Buy", quantity := 1, price := 11 }
    let b3 : Execution := { exchange := "E", date := 3, asset := "BTC", side := "Buy", quantity := 1, price := 12 }
    let s : Execution := { exchange := "E", date := 4, asset := "BTC", side := "Sell", quantity := 2, price := 30 }
    match_fifo false "BTC" [b1, b2, b3, s] =
      ([⟨"E", "E", 1, 4, "BTC", "Sell", 1, 10, 30, 0, 0, false⟩,
        ⟨"E", "E", 2, 4, "BTC", "Sell", 1, 11, 30, 0, 0, false⟩], [b3], 0) ∧
    match_lifo false "BTC" [b1, b2, b3, s] =
      ([⟨"E", "E", 3, 4, "BTC", "Sell", 1, 12, 30, 0, 0, false⟩,
        ⟨"E", "E", 2, 4, "BTC", "Sell", 1, 11, 30, 0, 0, false⟩], [b1], 0) := by
  norm_num [match_fifo, match_lifo, processAsset, List.foldl, stepExec, matchLoop, pushBack,
    Match.make, quantize4, quantize2, rhe, min_def]
  simp

/-- Claim C1, counterexample: a Buy of 1 followed by a Sell of 1 creates
total input quantity 2, one Match of quantity 1, no leftovers and no
transfer discards, so the claimed balance
input = matched + leftover + discarded fails by a full unit — far beyond
any rounding epsilon (the true per-match rounding slack is 1/10000). -/
theorem conservation_counterexample :
    let b : Execution := { exchange := "E", date := 1, asset := "BTC", side := "Buy", quantity := 1, price := 10 }
    let s : Execution := { exchange := "E", date := 2, asset := "BTC", side := "Sell", quantity := 1, price := 12 }
    let r := match_fifo false "BTC" [b, s]
    sumQ [b, s] = 2 ∧ matchedSum r.1 = 1 ∧ sumQ r.2.1 = 0 ∧ r.2.2 = 0 ∧
      ¬ |sumQ [b, s] - (matchedSum r.1 + sumQ r.2.1 + r.2.2)| ≤ (r.1.length : ℚ) / 10000 := by
  norm_num [match_fifo, processAsset, List.foldl, stepExec, matchLoop, pushBack,
    Match.make, quantize4, quantize2, rhe, min_def, sumQ, matchedSum]
  simp [sumQ, matchedSum]
  all_goals norm_num

/-- Claim C2: when `xfer_update` is true and the reduction loop empties the
queue with transfer fee remaining, `match.py` line 115 executes
`queue.append(execution)` right after logging that the transfer
"has been ignored" — the Transfer is pushed, not discarded, and surfaces
in the leftovers.  Here a Buy of quantity 1 followed by a Transfer with
fee 2 leaves the Transfer (with residual fee 1) as the sole leftover. -/
theorem transfer_pushed_to_queue :
    let b : Execution := { exchange := "E", date := 1, asset := "BTC", side := "Buy", quantity := 1, price := 10 }
    let t : Execution := { exchange := "F", date := 2, asset := "BTC", side := "Transfer", quantity := 0, fee := 2 }
    let r := match_fifo true "BTC" [b, t]
    r.2.1 = [{ t with fee := 1 }] ∧ (r.2.1.any (fun e => e.is_transfer)) = true := by
  norm_num [match_fifo, processAsset, List.foldl, stepExec, xferLoop, pushBack, min_def,
    Execution.is_transfer]
  simp

/-- Claim C3, counterexample: a Transfer with quantity 5 and fee 3 facing a
non-empty opposing queue with `xfer_update` false makes `match.py` line 118
execute `xfer_fees[execution.asset] += execution.quantity`: the accumulator
receives the quantity 5, not the fee attribute 3. -/
theorem transfer_fee_losses_counterexample :
    let b : Execution := { exchange := "E", date := 1, asset := "BTC", side := "Buy", quantity := 1, price := 10 }
    let t : Execution := { exchange := "F", date := 2, asset := "BTC", side := "Transfer", quantity := 5, fee := 3 }
    let r := match_fifo false "BTC" [b, t]
    r.2.2 = 5 ∧ r.2.2 ≠ t.fee := by
  norm_num [match_fifo, processAsset, List.foldl, stepExec, pushBack]
  simp

/-- Claim C3, amended: for an incoming Transfer facing a non-empty
opposing-side queue with `xfer_update` false, the engine adds the
Transfer's quantity (which, per `execution.py`'s class docstring, holds
the fee amount deducted in that asset — the `fee` attribute of a Transfer
is documented as 0) to the asset's transfer-fee-loss accumulator, emits no
Match, and leaves the queue unchanged. -/
theorem transfer_fee_losses_amended (fifo : Bool) (currency : String) (s : MState)
    (e top : Execution) (rest : List Execution) (hq : s.queue = top :: rest)
    (hside : top.side ≠ e.side) (ht : e.side = "Transfer") :
    stepExec false fifo currency s e = { s with xferFees := s.xferFees + e.quantity } := by
  have hside2 : ¬ top.side = "Transfer" := by rw [← ht]; exact hside
  simp [stepExec, hq, hside2, ht]

/-- Witness for `transfer_fee_losses_amended` at a concrete state: a queue
holding one Buy, an incoming Transfer of quantity 5; the step leaves the
match list and queue untouched and adds 5 to the accumulator. -/
theorem transfer_fee_losses_amended_witness :
    stepExec false true "BTC"
      ⟨[], [{ exchange := "E", date := 1, asset := "BTC", side := "Buy", quantity := 1, price := 10 }], 0⟩
      { exchange := "F", date := 2, asset := "BTC", side := "Transfer", quantity := 5, fee := 3 } =
    ⟨[], [{ exchange := "E", date := 1, asset := "BTC", side := "Buy", quantity := 1, price := 10 }], 5⟩ := by
  simpa using transfer_fee_losses_amended true "BTC"
    ⟨[], [{ exchange := "E", date := 1, asset := "BTC", side := "Buy", quantity := 1, price := 10 }], 0⟩
    { exchange := "F", date := 2, asset := "BTC", side := "Transfer", quantity := 5, fee := 3 }
    { exchange := "E", date := 1, asset := "BTC", side := "Buy", quantity := 1, price := 10 }
    [] rfl (by decide) rfl

/-! Conservation accounting for the matching engine (claim C1). -/

theorem sumQ_nil : sumQ [] = 0 := rfl

theorem sumQ_cons (e : Execution) (l : List Execution) : sumQ (e :: l) = e.quantity + sumQ l := by
  simp [sumQ]

theorem sumQ_append (l1 l2 : List Execution) : sumQ (l1 ++ l2) = sumQ l1 + sumQ l2 := by
  simp [sumQ]

theorem sumQ_reverse (l : List Execution) : sumQ l.reverse = sumQ l := by
  simp [sumQ, List.sum_reverse]

theorem sumQ_pushBack (fifo : Bool) (q : List Execution) (e : Execution) :
    sumQ (pushBack fifo q e) = sumQ q + e.quantity := by
  cases fifo <;> simp [pushBack, sumQ_cons, sumQ_append, sumQ] <;> ring

theorem matchedSum_cons (m : Match) (l : List Match) :
    matchedSum (m :: l) = m.quantity + matchedSum l := by
  simp [matchedSum]

theorem matchedSum_append (l1 l2 : List Match) :
    matchedSum (l1 ++ l2) = matchedSum l1 + matchedSum l2 := by
  simp [matchedSum]

theorem matchedSum_nil : matchedSum [] = 0 := rfl

/-- Per-match rounding slack: the quantity recorded on a `Match` is
`quantize4 min_qty` while the quantity consumed from the two executions is
`2 * min_qty`. -/
theorem abs_two_quantize4_sub_le (m : ℚ) : |2 * quantize4 m - 2 * m| ≤ 1/10000 := by
  have h := abs_quantize4_sub_le m
  have h2 : 2 * quantize4 m - 2 * m = 2 * (quantize4 m - m) := by ring
  rw [h2, abs_mul, abs_of_pos (by norm_num : (0:ℚ) < 2)]
  linarith

/-- One run of the opposing-side reduction loop consumes exactly the
quantities it records (twice the per-match quantity: once from the open
side, once from the closing side), up to the 4-place quantize on each
recorded match quantity. -/
theorem matchLoop_balance (currency : String) :
    ∀ (q : List Execution) (e : Execution),
      |2 * matchedSum (matchLoop currency q e).1 + sumQ (matchLoop currency q e).2
        - (sumQ q + e.quantity)| ≤ (((matchLoop currency q e).1.length : ℚ)) / 10000 := by
  intro q
  induction q with
  | nil =>
    intro e
    simp [matchLoop, matchedSum, sumQ]
  | cons first rest ih =>
    intro e
    have hm1 : min first.quantity e.quantity ≤ first.quantity := min_le_left _ _
    have hm2 : min first.quantity e.quantity ≤ e.quantity := min_le_right _ _
    have hq := abs_two_quantize4_sub_le (min first.quantity e.quantity)
    rw [abs_le] at hq
    simp only [matchLoop]
    split_ifs with h1 h2 h3
    · -- both sides fully consumed: result ([mt], rest)
      obtain ⟨he, hf⟩ := h1
      have e1 : first.quantity = min first.quantity e.quantity := le_antisymm (by linarith) hm1
      have e2 : e.quantity = min first.quantity e.quantity := le_antisymm (by linarith) hm2
      simp only [Match.make, matchedSum_cons, matchedSum_nil, sumQ_cons, List.length_cons,
        List.length_nil]
      rw [abs_le]
      push_cast
      constructor <;> linarith
    · -- incoming fully consumed, first partially: result ([mt], first' :: rest)
      have e2 : e.quantity = min first.quantity e.quantity := le_antisymm (by linarith) hm2
      simp only [Match.make, matchedSum_cons, matchedSum_nil, sumQ_cons, List.length_cons,
        List.length_nil]
      rw [abs_le]
      push_cast
      constructor <;> linarith
    · -- queue exhausted with incoming remaining: result ([mt], [e'])
      have hrest : rest = [] := by simpa [List.isEmpty_iff] using h3
      have e1 : first.quantity = min first.quantity e.quantity := by
        rcases min_choice first.quantity e.quantity with hc | hc
        · exact hc.symm
        · exact absurd (by rw [hc]; simp) h2
      subst hrest
      simp only [Match.make, matchedSum_cons, matchedSum_nil, sumQ_cons, sumQ_nil,
        List.length_cons, List.length_nil]
      rw [abs_le]
      push_cast
      constructor <;> linarith
    · -- first fully consumed, loop continues on rest
      have e1 : first.quantity = min first.quantity e.quantity := by
        rcases min_choice first.quantity e.quantity with hc | hc
        · exact hc.symm
        · exact absurd (by rw [hc]; simp) h2
      have key := ih { e with
        fee := e.fee - e.fee * (min first.quantity e.quantity / e.quantity),
        quantity := e.quantity - min first.quantity e.quantity }
      rw [abs_le] at key
      simp only [Match.make, matchedSum_cons, sumQ_cons, List.length_cons] at key ⊢
      rw [abs_le]
      push_cast at key ⊢
      constructor <;> linarith [key.1, key.2]

/-- The conserved quantity of an engine state: twice the recorded matched
quantity, plus what is still waiting in the queue, plus the transfer-fee
losses. -/
def balanceQ (s : MState) : ℚ := 2 * matchedSum s.matchList + sumQ s.queue + s.xferFees

/-- With `xfer_update` false, one step of the engine adds the incoming
execution's quantity to the conserved quantity, up to the per-match
rounding slack of the matches it emits. -/
theorem stepExec_balance (fifo : Bool) (currency : String) (s : MState) (e : Execution) :
    |balanceQ (stepExec false fifo currency s e) - balanceQ s - e.quantity|
      ≤ (((stepExec false fifo currency s e).matchList.length : ℚ) - (s.matchList.length : ℚ))
          / 10000 := by
  rcases hq : s.queue with _ | ⟨top, rest⟩
  · simp [stepExec, hq, balanceQ, sumQ_pushBack]
  · simp only [stepExec, hq]
    split_ifs with hside htr hup
    · rw [abs_le]
      push_cast
      constructor <;> simp [balanceQ, sumQ_pushBack, hq]
    · exact absurd hup (by simp)
    · rw [abs_le]
      push_cast
      constructor <;> simp [balanceQ, hq]
    · have key := matchLoop_balance currency (top :: rest) e
      simp only [balanceQ, hq, matchedSum_append, List.length_append]
      rw [abs_le] at key ⊢
      push_cast
      constructor <;> [linarith [key.1]; linarith [key.2]]

/-- Folding `stepExec` over an input stream with `xfer_update` false adds
the stream's total quantity to the conserved quantity, up to the rounding
slack of the emitted matches (telescoping the per-step bound). -/
theorem foldl_balance (fifo : Bool) (currency : String) :
    ∀ (exs : List Execution) (s : MState),
      |balanceQ (exs.foldl (stepExec false fifo currency) s) - balanceQ s - sumQ exs|
        ≤ (((exs.foldl (stepExec false fifo currency) s).matchList.length : ℚ)
            - (s.matchList.length : ℚ)) / 10000 := by
  intro exs
  induction exs with
  | nil => intro s; simp [sumQ_nil]
  | cons e rest ih =>
    intro s
    have h1 := stepExec_balance fifo currency s e
    have h2 := ih (stepExec false fifo currency s e)
    simp only [List.foldl_cons, sumQ_cons] at h2 ⊢
    rw [abs_le] at h1 h2 ⊢
    constructor <;> linarith [h1.1, h1.2, h2.1, h2.2]

/-- Claim C1, amended: for every asset and finite input stream processed
with `xfer_update` false (by `match_fifo` or `match_lifo`), the sum of the
input Execution quantities equals TWICE the sum of matched quantities
across the emitted Matches (each Match closes `min_qty` on both the open
and the closing execution), plus the leftover quantities, plus the
quantities accumulated from unmatchable transfers, within the rounding
epsilon `#matches / 10000` introduced by the 4-place quantize on each
recorded match quantity. -/
theorem conservation_amended (fifo : Bool) (currency : String) (exs : List Execution)
    (h : ∀ e ∈ exs, e.asset = currency) :
    let r := if fifo then match_fifo false currency exs else match_lifo false currency exs
    |sumQ exs - (2 * matchedSum r.1 + sumQ r.2.1 + r.2.2)| ≤ ((r.1.length : ℚ)) / 10000 := by
  have key := foldl_balance fifo currency exs ⟨[], [], 0⟩
  simp only [balanceQ, matchedSum_nil, sumQ_nil, List.length_nil] at key
  rw [abs_le] at key
  cases fifo <;>
    simp only [match_fifo, match_lifo, processAsset, if_true, if_false, Bool.false_eq_true,
      sumQ_reverse] <;>
  · rw [abs_sub_comm, abs_le]
    push_cast at key ⊢
    constructor <;> linarith [key.1, key.2]

/-- Witness for `conservation_amended`: a single Buy of quantity 1 under
FIFO yields no matches, the Buy as leftover and no transfer losses; the
balance holds exactly. -/
theorem conservation_amended_witness :
    let b : Execution := { exchange := "E", date := 1, asset := "BTC", side := "Buy", quantity := 1, price := 10 }
    let r := if true then match_fifo false "BTC" [b] else match_lifo false "BTC" [b]
    |sumQ [b] - (2 * matchedSum r.1 + sumQ r.2.1 + r.2.2)| ≤ ((r.1.length : ℚ)) / 10000 :=
  conservation_amended true "BTC" _ (by intro e he; rw [List.mem_singleton] at he; rw [he])

/-! Side-uniformity of the waiting queue (claim C10). -/

/-- All executions in a queue share one side. -/
def SameSided (q : List Execution) : Prop := ∀ a ∈ q, ∀ b ∈ q, a.side = b.side

theorem sameSided_nil : SameSided [] := by intro a ha; cases ha

theorem sameSided_singleton (e : Execution) : SameSided [e] := by
  intro a ha b hb
  rw [List.mem_singleton] at ha hb
  rw [ha, hb]

theorem sameSided_of_cons (x : Execution) (l : List Execution) (h : SameSided (x :: l)) :
    SameSided l := by
  intro a ha b hb
  exact h a (List.mem_cons_of_mem x ha) b (List.mem_cons_of_mem x hb)

/-- Replacing the head by an execution of the same side preserves
side-uniformity. -/
theorem sameSided_cons_replace (x y : Execution) (l : List Execution)
    (h : SameSided (x :: l)) (hxy : y.side = x.side) : SameSided (y :: l) := by
  intro a ha b hb
  rw [List.mem_cons] at ha hb
  have hx := List.mem_cons_self x l
  rcases ha with ha | ha <;> rcases hb with hb | hb
  · rw [ha, hb]
  · rw [ha, hxy]; exact h x hx b (List.mem_cons_of_mem x hb)
  · rw [hb, hxy]; exact h a (List.mem_cons_of_mem x ha) x hx
  · exact h a (List.mem_cons_of_mem x ha) b (List.mem_cons_of_mem x hb)

theorem pushBack_true (q : List Execution) (e : Execution) : pushBack true q e = q ++ [e] := by
  simp [pushBack]

theorem pushBack_false (q : List Execution) (e : Execution) : pushBack false q e = e :: q := by
  simp [pushBack]

/-- Appending an execution whose side agrees with every queue element
preserves side-uniformity, at either end of the deque. -/
theorem sameSided_pushBack (fifo : Bool) (q : List Execution) (e : Execution)
    (h : SameSided q) (he : ∀ a ∈ q, a.side = e.side) :
    SameSided (pushBack fifo q e) := by
  cases fifo
  · rw [pushBack_false]
    intro a ha b hb
    rw [List.mem_cons] at ha hb
    rcases ha with ha | ha <;> rcases hb with hb | hb
    · rw [ha, hb]
    · rw [ha]; exact (he b hb).symm
    · rw [hb]; exact he a ha
    · exact h a ha b hb
  · rw [pushBack_true]
    intro a ha b hb
    rw [List.mem_append, List.mem_singleton] at ha hb
    rcases ha with ha | ha <;> rcases hb with hb | hb
    · exact h a ha b hb
    · rw [hb]; exact he a ha
    · rw [ha]; exact (he b hb).symm
    · rw [ha, hb]

/-- The in-place transfer loop preserves side-uniformity of the queue. -/
theorem xferLoop_sameSided :
    ∀ (q : List Execution) (e : Execution), SameSided q → SameSided (xferLoop q e) := by
  intro q
  induction q with
  | nil => intro e _; simp only [xferLoop]; exact sameSided_nil
  | cons first rest ih =>
    intro e h
    simp only [xferLoop]
    split_ifs with h1 h2 h3
    · exact sameSided_of_cons first rest h
    · exact sameSided_cons_replace first _ rest h rfl
    · exact sameSided_singleton _
    · exact ih _ (sameSided_of_cons first rest h)

/-- The opposing-side reduction loop preserves side-uniformity of the
queue it returns. -/
theorem matchLoop_sameSided (currency : String) :
    ∀ (q : List Execution) (e : Execution), SameSided q →
      SameSided (matchLoop currency q e).2 := by
  intro q
  induction q with
  | nil => intro e _; exact sameSided_singleton _
  | cons first rest ih =>
    intro e h
    simp only [matchLoop]
    split_ifs with h1 h2 h3
    · exact sameSided_of_cons first rest h
    · exact sameSided_cons_replace first _ rest h rfl
    · exact sameSided_singleton _
    · exact ih _ (sameSided_of_cons first rest h)

/-- One engine step preserves side-uniformity of the waiting queue. -/
theorem stepExec_sameSided (xferUpdate fifo : Bool) (currency : String) (s : MState)
    (e : Execution) (h : SameSided s.queue) :
    SameSided (stepExec xferUpdate fifo currency s e).queue := by
  rcases hq : s.queue with _ | ⟨top, rest⟩
  · simp only [stepExec, hq]
    cases fifo <;> simp [pushBack] <;> exact sameSided_singleton _
  · rw [hq] at h
    simp only [stepExec, hq]
    split_ifs with hside htr hup
    · exact sameSided_pushBack fifo (top :: rest) e h
        (fun a ha => (h a ha top (List.mem_cons_self top rest)).trans hside)
    · exact xferLoop_sameSided (top :: rest) e h
    · rw [← hq]; exact hq ▸ h
    · exact matchLoop_sameSided currency (top :: rest) e h

/-- Claim C10: for every strategy, transfer mode and input stream, after
processing any prefix of the stream — i.e. at the moment each incoming
execution begins processing — all executions held in the per-asset
waiting queue have the same side: the queue never simultaneously holds a
Buy and a Sell, or a Transfer together with a non-Transfer. -/
theorem queue_side_uniform (fifo xferUpdate : Bool) (currency : String)
    (exs : List Execution) :
    SameSided (processAsset fifo xferUpdate currency exs).queue := by
  suffices key : ∀ (l : List Execution) (s : MState), SameSided s.queue →
      SameSided (l.foldl (stepExec xferUpdate fifo currency) s).queue by
    exact key exs ⟨[], [], 0⟩ sameSided_nil
  intro l
  induction l with
  | nil => intro s h; exact h
  | cons e rest ih =>
    intro s h
    exact ih _ (stepExec_sameSided xferUpdate fifo currency s e h)

/-- Claim C8: in the reduction of two matched Executions by their shared
minimum quantity `m`, suppose each execution's running fee still stands in
its original proportion to its running quantity — `fee * Q0 = F0 * quantity`
where `F0, Q0` are the fee and quantity the execution was created with
(trivially true before its first partial match).  Then the fee subtracted
from each side is exactly `F0 * (m / Q0)`, the original fee pro-rated by
the share of the original quantity consumed, and the proportion is
preserved for the next partial match — so there is no drift across
successive partial matches (exact rational arithmetic). -/
theorem fee_proportionality_no_drift (first second : Execution) (F Q G R : ℚ)
    (hq1 : 0 < first.quantity) (hQ : 0 < Q) (hinv1 : first.fee * Q = F * first.quantity)
    (hq2 : 0 < second.quantity) (hR : 0 < R) (hinv2 : second.fee * R = G * second.quantity) :
    let r := reduce_executions first second
    let m := min first.quantity second.quantity
    r.2.2.2.1 = F * (m / Q) ∧ r.2.2.2.2 = G * (m / R) ∧
      (r.1).fee * Q = F * (r.1).quantity ∧ (r.2.1).fee * R = G * (r.2.1).quantity := by
  have hq1' : first.quantity ≠ 0 := ne_of_gt hq1
  have hq2' : second.quantity ≠ 0 := ne_of_gt hq2
  have hQ' : Q ≠ 0 := ne_of_gt hQ
  have hR' : R ≠ 0 := ne_of_gt hR
  simp only [reduce_executions]
  refine ⟨?_, ?_, ?_, ?_⟩
  · field_simp
    linear_combination min first.quantity second.quantity * hinv1
  · field_simp
    linear_combination min first.quantity second.quantity * hinv2
  · field_simp
    linear_combination (first.quantity - min first.quantity second.quantity) * hinv1
  · field_simp
    linear_combination (second.quantity - min first.quantity second.quantity) * hinv2

/-- Witness for `fee_proportionality_no_drift`: `first` was created with
fee 6 over quantity 3, has already been reduced to fee 4 over quantity 2;
`second` is untouched at fee 10 over quantity 5.  Matching min quantity 2
subtracts 6·(2/3) = 4 from `first` and 10·(2/5) = 4 from `second`, and
both proportions persist. -/
theorem fee_proportionality_no_drift_witness :
    let first : Execution := { exchange := "E", date := 1, asset := "BTC", side := "Buy", quantity := 2, fee := 4 }
    let second : Execution := { exchange := "F", date := 2, asset := "BTC", side := "Sell", quantity := 5, fee := 10 }
    let r := reduce_executions first second
    let m := min first.quantity second.quantity
    r.2.2.2.1 = 6 * (m / 3) ∧ r.2.2.2.2 = 10 * (m / 5) ∧
      (r.1).fee * 3 = 6 * (r.1).quantity ∧ (r.2.1).fee * 5 = 10 * (r.2.1).quantity :=
  fee_proportionality_no_drift
    { exchange := "E", date := 1, asset := "BTC", side := "Buy", quantity := 2, fee := 4 }
    { exchange := "F", date := 2, asset := "BTC", side := "Sell", quantity := 5, fee := 10 }
    6 3 10 5 (by norm_num) (by norm_num) (by norm_num) (by norm_num) (by norm_num) (by norm_num)

/-! `price_data.py` — `PriceData` and `lookup_price`. -/

/-- The value returned by `PriceData.lookup_price`: the source returns
either a bare `Decimal` (its two early returns, lines 80 and 83) or the
tuple `(direct_price, indirect_price)` of line 95, in which exactly one
component is `None`. -/
inductive LookupResult where
  | single : ℚ → LookupResult
  | pair : Option ℚ → Option ℚ → LookupResult
deriving DecidableEq

/-- `price_data.py` — `class PriceData`.  `lookup` is the injected
`price_lookup(currency, date)` callable; a missing table entry resolves
to 0 (`crypto_taxes.get_price_on_date`). -/
structure PriceData where
  lookup : String → ℕ → ℚ
  currency_in : String
  currency_out : String
  currency_direct : Bool

/-- `price_data.py` — `PriceData.is_input_currency`. -/
def PriceData.is_input_currency (pd : PriceData) (currency : String) : Bool :=
  currency == pd.currency_in

/-- `price_data.py` — `PriceData.is_output_currency`. -/
def PriceData.is_output_currency (pd : PriceData) (currency : String) : Bool :=
  currency == pd.currency_out

/-- `price_data.py` — `PriceData.is_inout_currency`. -/
def PriceData.is_inout_currency (pd : PriceData) (currency : String) : Bool :=
  currency == pd.currency_in || currency == pd.currency_out

/-- `price_data.py` lines 59-95 — `PriceData.lookup_price(date, currency,
base_currency)`.  Note the source signature has NO `units` parameter.
`self.lookup(self.currency_out, date) or Decimal(1)` maps a falsy (0)
lookup to 1. -/
def PriceData.lookup_price (pd : PriceData) (date : ℕ) (currency : Option String := none)
    (base_currency : Option String := none) : LookupResult :=
  let currency := currency.getD pd.currency_out
  if pd.is_output_currency currency then .single 1
  else
    let looked := pd.lookup pd.currency_out date
    let output_price := if looked = 0 then 1 else looked
    if pd.is_inout_currency currency then .single output_price
    else if pd.currency_direct || base_currency.isNone then
      .pair (some (pd.lookup currency date / output_price)) none
    else
      let ind : ℚ :=
        match base_currency with
        | some b => if b == currency || pd.is_inout_currency b then 1 else pd.lookup b date
        | none => 1
      .pair none (some (ind / output_price))

/-- Claim C4: with direct mode off, `input=USD`, `output=JPY`,
`lookup(ETH)=2000`, `lookup(JPY)=150`, the indirect resolution for
currency `BTC` with base currency `ETH` returns `2000 / 150` — the
trade-price factor `units = 13` is never multiplied in (the source's
`lookup_price` has no `units` parameter at all, although its caller
`trade.py:132` passes `units=self.price`), so the result differs from the
specified `13 × 2000 / 150`. -/
theorem indirect_price_missing_units :
    let pd : PriceData := { lookup := fun c _ => if c == "ETH" then 2000 else if c == "JPY" then 150 else if c == "BTC" then 20000 else 0,
                            currency_in := "USD", currency_out := "JPY", currency_direct := false }
    pd.lookup_price 0 (some "BTC") (some "ETH") = .pair none (some (2000 / 150)) ∧
      (2000 / 150 : ℚ) ≠ 13 * 2000 / 150 := by
  constructor
  · simp [PriceData.lookup_price, PriceData.is_output_currency, PriceData.is_inout_currency]
  · norm_num

/-! `trade.py` — `Trade` and its normalization. -/

/-- A trade-leg execution as `trade.py` builds it.  The source stores the
raw return of `lookup_price` in the `price` attribute — in the reachable
underlying-leg branch this is the `(direct, indirect)` tuple, not a
`Decimal` — so this record's price field carries a `LookupResult`
(`LookupResult.single` models a bare `Decimal`). -/
structure NExecution where
  exchange : String
  date : ℕ
  asset : String
  side : String
  quantity : ℚ
  price : LookupResult
  fee : ℚ
  merged : Bool := false
deriving DecidableEq

/-- `trade.py` — `class Trade`.  `asset`/`underlying` are the top/bottom
of the constructor's `pair.split("/")`; `alt_qty` is `none` when the
input row carries no alternate quantity. -/
structure Trade where
  exchange : String
  date : ℕ
  side : String
  price : ℚ
  quantity : ℚ
  fee : ℚ
  fee_currency : String
  fee_base : ℚ
  fee_attached : Bool
  alt_qty : Option ℚ
  asset : String
  underlying : String

/-- `self.alt_qty or self.quantity * self.price` (both `None` and 0 are
falsy in Python). -/
def Trade.altOr (t : Trade) : ℚ :=
  match t.alt_qty with
  | some a => if a = 0 then t.quantity * t.price else a
  | none => t.quantity * t.price

/-- `trade.py` lines 170-174 — `Trade.modify_fee`: reduces the quantity
only when the fee is not yet attached AND the fee currency equals the
execution's asset, then sets the fee. -/
def Trade.modify_fee (t : Trade) (execution : NExecution) (fee_out : ℚ) : NExecution :=
  let execution :=
    if ¬t.fee_attached ∧ t.fee_currency = execution.asset then
      { execution with quantity := execution.quantity - t.fee }
    else execution
  { execution with fee := fee_out }

/-- `trade.py` lines 156-168 — `Trade.__do_fees`.  The source mutates
`buy` / `sell` in place and returns only `fee_sell`; we return the updated
`(buy, sell, fee_sell)` triple. -/
def Trade.do_fees (t : Trade) (pd : PriceData) (buy sell : Option NExecution) (fee_out : ℚ) :
    Option NExecution × Option NExecution × Option NExecution :=
  let attach_fee_to_buy : Bool :=
    match buy with
    | none => false
    | some b => b.asset == t.fee_currency ||
        (match sell with
         | none => true
         | some s => pd.is_inout_currency s.asset)
  if t.fee_currency ≠ t.asset ∧ t.fee_currency ≠ t.underlying ∧
      pd.is_inout_currency t.fee_currency = false ∧ 0 < t.fee then
    let fee_sell : NExecution :=
      { exchange := t.exchange, date := t.date, asset := t.fee_currency,
        side := "Sell", quantity := t.fee, price := .single (fee_out / t.fee), fee := 0 }
    (buy, sell, some fee_sell)
  else if attach_fee_to_buy then
    (buy.map (fun b => t.modify_fee b fee_out), sell, none)
  else
    match sell with
    | some s => (buy, some (t.modify_fee s fee_out), none)
    | none => (buy, sell, none)

/-- The value `Trade.normalize_executions` returns: the 1-tuple `(None,)`
of line 125 (`short`) or the 3-tuple `(exec_1, exec_2, fee_sell)` of line
154 (`full`). -/
inductive NormResult where
  | short : NormResult
  | full : Option NExecution → Option NExecution → Option NExecution → NormResult
deriving DecidableEq

/-- `trade.py` lines 67-154 — `Trade.normalize_executions`.  Python
exceptions raised mid-way are modelled as `Except.error` carrying the
exception text:
  * when the asset is not an in/out currency, line 132 calls
    `lookup_price(..., units=self.price)`, a keyword argument that
    `lookup_price` does not take, so every such trade raises `TypeError`;
  * the fee conversion (line 150) multiplies `self.fee` by the return of
    `lookup_price`, which is a tuple whenever `fee_currency` is not an
    in/out currency — also a `TypeError`. -/
def Trade.normalize_executions (t : Trade) (pd : PriceData) : Except String NormResult :=
  let buy_quantity := if t.side == "Buy" then t.quantity else t.altOr
  let sell_quantity := if t.side == "Buy" then t.altOr else t.quantity
  let is_asset_inout := pd.is_inout_currency t.asset
  let is_underlying_inout := pd.is_inout_currency t.underlying
  if is_asset_inout && is_underlying_inout then .ok .short
  else if !is_asset_inout then
    .error "TypeError: lookup_price got an unexpected keyword argument units"
  else
    let bottom_px := pd.lookup_price t.date (some t.underlying) none
    let exec_2 : NExecution :=
      { exchange := t.exchange, date := t.date, asset := t.underlying,
        side := if t.side == "Buy" then "Sell" else "Buy",
        quantity := if t.side == "Buy" then sell_quantity else buy_quantity,
        price := bottom_px, fee := 0 }
    let fee_out? : Except String ℚ :=
      if 0 < t.fee_base then
        match pd.lookup_price t.date none none with
        | .single v => .ok (t.fee_base / v)
        | .pair _ _ => .error "TypeError: unsupported operand types for division"
      else
        match pd.lookup_price t.date (some t.fee_currency) none with
        | .single v => .ok (t.fee * v)
        | .pair _ _ => .error "TypeError: unsupported operand types for multiplication"
    match fee_out? with
    | .error msg => .error msg
    | .ok fee_out =>
      let r := t.do_fees pd none (some exec_2) fee_out
      .ok (.full r.1 r.2.1 r.2.2)

/-- Claim C6: a Trade whose asset and underlying are both in/out
currencies of the oracle — here the pair JPY/USD with output JPY and
input USD — produces zero executions, but the code returns the 1-tuple
`(None,)` of line 125 (`NormResult.short`), not the 3-tuple
`(None, None, None)` that the claim states and the function's own
return type hint (`tuple[Union[Execution, None], ...]`, a 3-tuple)
declares. -/
theorem normalize_inout_short :
    let pd : PriceData := { lookup := fun _ _ => 0, currency_in := "USD", currency_out := "JPY", currency_direct := false }
    let t : Trade :=
      { exchange := "E", date := 0, side := "Buy", price := 150, quantity := 1000, fee := 0,
        fee_currency := "USD", fee_base := 0, fee_attached := true, alt_qty := none,
        asset := "JPY", underlying := "USD" }
    t.normalize_executions pd = .ok .short ∧
      NormResult.short ≠ NormResult.full none none none := by
  constructor
  · norm_num [Trade.normalize_executions, PriceData.is_inout_currency]
  · exact fun hcon => NormResult.noConfusion hcon

/-- Claim C7, counterexample: Buy 5 BTC/USD with a 1 USD fee not yet
attached (`fee_attached=false`), input USD / output JPY.  The fee is
attached to the only leg (the BTC buy leg, since there is no sell leg and
no synthetic fee leg — USD is an in/out currency): its `fee` becomes
`fee_out = 7`, but its quantity stays 5 instead of dropping to
`5 - trade.fee = 4`, because `modify_fee` additionally requires
`fee_currency == execution.asset` and `"USD" ≠ "BTC"`. -/
theorem fee_attach_counterexample :
    let pd : PriceData := { lookup := fun _ _ => 0, currency_in := "USD", currency_out := "JPY", currency_direct := false }
    let t : Trade :=
      { exchange := "E", date := 0, side := "Buy", price := 20000, quantity := 5, fee := 1,
        fee_currency := "USD", fee_base := 0, fee_attached := false, alt_qty := none,
        asset := "BTC", underlying := "USD" }
    let b : NExecution :=
      { exchange := "E", date := 0, asset := "BTC", side := "Buy", quantity := 5,
        price := .pair (some 1) none, fee := 0 }
    t.do_fees pd (some b) none 7 = (some { b with fee := 7 }, none, none) ∧
      ({ b with fee := 7 } : NExecution).quantity ≠ b.quantity - t.fee := by
  constructor
  · simp [Trade.do_fees, Trade.modify_fee, PriceData.is_inout_currency]
  · norm_num

/-- Claim C7, amended: when the fee is attached to a leg, `modify_fee`
sets that execution's fee to `fee_out`, and reduces its quantity by
`trade.fee` only when `fee_attached` is false AND the trade's fee currency
equals that execution's asset; with a fee paid in any other currency the
quantity is left unchanged. -/
theorem modify_fee_amended (t : Trade) (e : NExecution) (fee_out : ℚ)
    (hna : t.fee_attached = false) :
    (t.modify_fee e fee_out).fee = fee_out ∧
      (t.fee_currency = e.asset → (t.modify_fee e fee_out).quantity = e.quantity - t.fee) ∧
      (t.fee_currency ≠ e.asset → (t.modify_fee e fee_out).quantity = e.quantity) := by
  refine ⟨by simp [Trade.modify_fee], ?_, ?_⟩
  · intro hc
    simp [Trade.modify_fee, hna, hc]
  · intro hc
    simp [Trade.modify_fee, hc]

/-- Witness for `modify_fee_amended`: the concrete trade and leg of the
counterexample — fee set to 7, quantity untouched since USD ≠ BTC. -/
theorem modify_fee_amended_witness :
    let t : Trade :=
      { exchange := "E", date := 0, side := "Buy", price := 20000, quantity := 5, fee := 1,
        fee_currency := "USD", fee_base := 0, fee_attached := false, alt_qty := none,
        asset := "BTC", underlying := "USD" }
    let b : NExecution :=
      { exchange := "E", date := 0, asset := "BTC", side := "Buy", quantity := 5,
        price := .pair (some 1) none, fee := 0 }
    (t.modify_fee b 7).fee = 7 ∧
      (t.fee_currency = b.asset → (t.modify_fee b 7).quantity = b.quantity - t.fee) ∧
      (t.fee_currency ≠ b.asset → (t.modify_fee b 7).quantity = b.quantity) :=
  modify_fee_amended
    { exchange := "E", date := 0, side := "Buy", price := 20000, quantity := 5, fee := 1,
        fee_currency := "USD", fee_base := 0, fee_attached := false, alt_qty := none,
        asset := "BTC", underlying := "USD" }
    { exchange := "E", date := 0, asset := "BTC", side := "Buy", quantity := 5,
        price := .pair (some 1) none, fee := 0 }
    7 rfl

/-! `crypto_taxes.py` — `MatchQueue.prices_close`. -/

/-- `MatchQueue.FUZZY_MATCH_PRICE = 0.4`: a Python float literal, whose
exact value is the IEEE-754 double nearest to 0.4 — slightly above 2/5.
Python compares `Decimal` with `float` exactly, so this dyadic rational
is the band the source actually applies. -/
def FUZZY_MATCH_PRICE : ℚ := 3602879701896397 / 9007199254740992

/-- `crypto_taxes.py` lines 283-286 — `MatchQueue.prices_close(first,
second)`; only the `price` attributes of the two executions are read.
`none` models the `decimal` exception the source raises when dividing by
`first.price = 0` (`DivisionByZero`, or `InvalidOperation` for 0/0);
otherwise the comparison result is returned. -/
def prices_close (first second : Execution) : Option Bool :=
  if first.price = 0 then none
  else some (decide (|first.price - second.price| / first.price < FUZZY_MATCH_PRICE))

/-- Claim C9, counterexample: with `first.price = 0` the source raises a
division error instead of returning `false` (`none ≠ some false`); and at
prices 5 and 3 the relative difference is exactly 2/5, which is NOT
`< 0.4`, yet the code returns `true` because the float literal `0.4` is
slightly above 2/5. -/
theorem prices_close_counterexample :
    let z : Execution := { exchange := "E", date := 1, asset := "BTC", side := "Buy", quantity := 1, price := 0 }
    let o : Execution := { exchange := "E", date := 1, asset := "BTC", side := "Buy", quantity := 1, price := 1 }
    let p5 : Execution := { exchange := "E", date := 1, asset := "BTC", side := "Buy", quantity := 1, price := 5 }
    let p3 : Execution := { exchange := "E", date := 1, asset := "BTC", side := "Buy", quantity := 1, price := 3 }
    prices_close z o = none ∧ (none : Option Bool) ≠ some false ∧
      prices_close p5 p3 = some true ∧ ¬ (|(5:ℚ) - 3| / 5 < 2/5) := by
  refine ⟨?_, by simp, ?_, by norm_num [abs_of_nonneg]⟩
  · simp [prices_close]
  · simp only [prices_close]
    norm_num [FUZZY_MATCH_PRICE, abs_of_nonneg]

/-- Claim C9, amended: for `first.price ≠ 0` the merger's price-closeness
predicate returns the comparison
`|p1 - p2| / p1 < FUZZY_MATCH_PRICE` (the exact value of the float
literal `0.4`); at `first.price = 0` it raises a decimal division error
(modelled `none`) rather than returning `false`. -/
theorem prices_close_amended (first second : Execution) (h : first.price ≠ 0) :
    prices_close first second =
      some (decide (|first.price - second.price| / first.price < FUZZY_MATCH_PRICE)) := by
  simp [prices_close, h]

/-- Witness for `prices_close_amended` at prices 10 and 11: the relative
difference 1/10 is inside the band, so the result is `some true`. -/
theorem prices_close_amended_witness :
    let a : Execution := { exchange := "E", date := 1, asset := "BTC", side := "Buy", quantity := 1, price := 10 }
    let b : Execution := { exchange := "E", date := 2, asset := "BTC", side := "Buy", quantity := 1, price := 11 }
    prices_close a b = some true := by
  have h := prices_close_amended
    { exchange := "E", date := 1, asset := "BTC", side := "Buy", quantity := 1, price := 10 }
    { exchange := "E", date := 2, asset := "BTC", side := "Buy", quantity := 1, price := 11 }
    (by norm_num)
  simp only [h, Option.some.injEq, decide_eq_true_eq]
  norm_num [FUZZY_MATCH_PRICE, abs_sub_comm, abs_of_nonneg]
